import Mathlib

/-!
Shallow embedding of the task-distribution core of the study-plan tracker.

The definitions below translate `distributeTasksSmartly` and
`distributeTasksEvenly` from `src/utils.ts`.  JS objects with string keys are
modelled as association lists in key-insertion order, the day-filling `while`
loop is modelled with an explicit iteration budget (proved sufficient below),
and JS numbers are modelled as `Nat`/`Int`.
-/

namespace StudyPlan

/-- Modelled from the spec: the `Task` record type is declared in `types.ts`,
which is not among the sources; section 3 of the spec lists its fields
(`id`, `subject`, `topic`, `dayIndex`, `isCompleted`, `color`). -/
structure Task where
  id : String
  subject : String
  topic : String
  isCompleted : Bool
  dayIndex : Int
  color : Option String
  deriving DecidableEq, Repr

/-- The JS mutation `task.dayIndex = day` performed on a popped task. -/
def assignDay (t : Task) (day : Int) : Task := { t with dayIndex := day }

/-- Append a string unless it is already present; this is the effect of one
insertion into a JS `Set` (or of `if (!xs.includes(s)) xs.push(s)`). -/
def insertDistinct (acc : List String) (s : String) : List String :=
  if s ∈ acc then acc else acc ++ [s]

/-- `Array.from(new Set(tasks.map(t => t.subject)))`: the distinct subjects of
the input, in first-occurrence order. -/
def allSubjects (tasks : List Task) : List String :=
  tasks.foldl (fun acc t => insertDistinct acc t.subject) []

/-- The hard-coded five-subject rotation literal in `distributeTasksSmartly`. -/
def balancedRotation : List String :=
  ["الفيزياء", "اللغة العربية", "الكيمياء", "اللغة الإنجليزية", "الأحياء والجيولوجيا"]

/-- The rotation after `allSubjects.forEach(s => if (!balancedRotation.includes(s)) push(s))`:
every subject of the input that is not in the base list is appended once. -/
def buildRotation (tasks : List Task) : List String :=
  (allSubjects tasks).foldl insertDistinct balancedRotation

/-- `queues[subj].push(t)`: append a task to the queue stored under `subj`
(first matching key; no effect when the key is missing). -/
def pushQueue : List (String × List Task) → String → Task → List (String × List Task)
  | [], _, _ => []
  | (s, q) :: rest, subj, t =>
    if s = subj then (s, q ++ [t]) :: rest else (s, q) :: pushQueue rest subj t

/-- The `queues` object: one key per distinct subject (created first, in
first-occurrence order), then every task pushed onto its subject's queue. -/
def buildQueues (tasks : List Task) : List (String × List Task) :=
  tasks.foldl (fun qs t => pushQueue qs t.subject t)
    ((allSubjects tasks).map (fun s => (s, ([] : List Task))))

/-- `queues[subj]` (first matching key), with `[]` for a missing key. -/
def lookupQ : List (String × List Task) → String → List Task
  | [], _ => []
  | (s, q) :: rest, subj => if s = subj then q else lookupQ rest subj

/-- The guarded `shift()`: take the front task of the queue stored under
`subj`, returning `none` (and leaving the queues unchanged) when the key is
missing or its queue is empty. -/
def popQueue : List (String × List Task) → String → Option Task × List (String × List Task)
  | [], _ => (none, [])
  | (s, q) :: rest, subj =>
    if s = subj then
      match q with
      | [] => (none, (s, q) :: rest)
      | t :: ts => (some t, (s, ts) :: rest)
    else
      let p := popQueue rest subj
      (p.1, (s, q) :: p.2)

/-- Total number of queued tasks (`Object.values(queues).forEach(... + q.length)`). -/
def sumQ (qs : List (String × List Task)) : Nat :=
  (qs.map (fun p => p.2.length)).sum

/-- All queued tasks, in key order then queue order. -/
def flatQ (qs : List (String × List Task)) : List Task :=
  (qs.map Prod.snd).flatten

/-- `Object.keys(queues).find(k => queues[k].length > 0)`: the first key, in
key-insertion order, whose queue is non-empty. -/
def findNonempty : List (String × List Task) → Option String
  | [] => none
  | (s, q) :: rest => if 0 < q.length then some s else findNonempty rest

/-- State of one run of the day-filling `while` loop: the queues, the output
list built so far, the rotation pointer, and the three per-day counters
(`tasksAddedToday`, `totalRemainingTasks`, `attempts`). -/
structure DayState where
  queues : List (String × List Task)
  out : List Task
  ptr : Nat
  added : Nat
  remaining : Nat
  attempts : Nat
  deriving DecidableEq, Repr

/-- Result of one `while` iteration: `done` means the loop is over (its
condition failed, or a `break` ran), `next` means it loops again. -/
inductive StepResult where
  | done (s : DayState)
  | next (s : DayState)
  deriving DecidableEq, Repr

/-- The state carried by a step result. -/
def StepResult.state : StepResult → DayState
  | .done s => s
  | .next s => s

/-- Stamp a popped task with the current day and update the counters:
`task.dayIndex = day; distributedTasks.push(task); tasksAddedToday++;
totalRemainingTasks--`. -/
def applyPop (day : Int) (s : DayState) (t : Task) (qs : List (String × List Task)) : DayState :=
  { s with
    queues := qs
    out := s.out ++ [assignDay t day]
    added := s.added + 1
    remaining := s.remaining - 1 }

/-- The unconditional pointer advance and attempt count of each pass:
`subjectPointer = (subjectPointer + 1) % balancedRotation.length; attempts++`. -/
def bump (rot : List String) (s : DayState) : DayState :=
  { s with ptr := (s.ptr + 1) % rot.length, attempts := s.attempts + 1 }

/-- Rotation phase of one `while` iteration: try the queue of
`balancedRotation[subjectPointer]`, then advance the pointer and count the
attempt whether or not a task was taken. -/
def rotPhase (rot : List String) (day : Int) (s : DayState) : DayState :=
  bump rot
    (match popQueue s.queues (rot.getD s.ptr "") with
     | (some t, qs) => applyPop day s t qs
     | (none, _) => s)

/-- Fallback phase: once `attempts > balancedRotation.length * 2` with the
day's quota unmet, pop from the first non-empty queue in key order.  The JS
guard `if (anySubject)` is a truthiness test, so both a missing result and an
empty-string subject key take the `else break` branch. -/
def fallbackPhase (rot : List String) (day : Int) (target : Nat) (s : DayState) : StepResult :=
  if 2 * rot.length < s.attempts ∧ s.added < target then
    match findNonempty s.queues with
    | some subj =>
      if subj = "" then .done s
      else
        match popQueue s.queues subj with
        | (some t, qs) => .next (applyPop day s t qs)
        | (none, _) => .next s
    | none => .done s
  else .next s

/-- One full iteration of `while (tasksAddedToday < dailyTarget &&
totalRemainingTasks > 0)`. -/
def fillStep (rot : List String) (day : Int) (target : Nat) (s : DayState) : StepResult :=
  if s.added < target ∧ 0 < s.remaining then
    fallbackPhase rot day target (rotPhase rot day s)
  else .done s

/-- The day-filling `while` loop, run with an explicit iteration budget.  The
budget passed by the allocator is proved large enough that the loop always
reaches a genuine exit, so the budget is a modelling device, not a semantic
change. -/
def fillDay (rot : List String) (day : Int) (target : Nat) : Nat → DayState → DayState
  | 0, s => s
  | fuel + 1, s =>
    match fillStep rot day target s with
    | .done s' => s'
    | .next s' => fillDay rot day target fuel s'

/-- The iteration budget handed to `fillDay`: the remaining-task count plus
`2 * rotation length + 2`, an upper bound on the possible iterations. -/
def fillFuel (rot : List String) (r : Nat) : Nat := r + (2 * rot.length + 2)

/-- State carried from one day of the outer `for` loop to the next: the
queues, the output so far, and the rotation pointer (which is deliberately
not reset between days). -/
structure AllocState where
  queues : List (String × List Task)
  out : List Task
  ptr : Nat
  deriving DecidableEq, Repr

/-- Body of one outer-loop iteration (after the early-exit check): recompute
`totalRemainingTasks`, `remainingDays = totalDays - day`, the ceiling daily
target, and fill the day. -/
def dayStep (rot : List String) (D day : Nat) (s : AllocState) : AllocState :=
  let r := sumQ s.queues
  let remainingDays := D - day
  let target := (r + remainingDays - 1) / remainingDays
  let ds := fillDay rot (day : Int) target (fillFuel rot r)
    ⟨s.queues, s.out, s.ptr, 0, r, 0⟩
  ⟨ds.queues, ds.out, ds.ptr⟩

/-- The outer `for (let day = 0; day < totalDays; day++)` loop: `daysLeft`
counts the iterations still to run, `day` is the loop counter, and the loop
breaks early when no tasks remain. -/
def runDays (rot : List String) (D : Nat) : Nat → Nat → AllocState → AllocState
  | _, 0, s => s
  | day, daysLeft + 1, s =>
    if sumQ s.queues = 0 then s
    else runDays rot D (day + 1) daysLeft (dayStep rot D day s)

/-- Initial allocator state: the per-subject queues, an empty output list and
the rotation pointer at zero. -/
def allocStart (tasks : List Task) : AllocState := ⟨buildQueues tasks, [], 0⟩

/-- `distributeTasksSmartly` from `src/utils.ts`. -/
def distributeTasksSmartly (tasks : List Task) (totalDays : Int) : List Task :=
  (runDays (buildRotation tasks) totalDays.toNat 0 totalDays.toNat (allocStart tasks)).out

/-- `distributeTasksEvenly` from `src/utils.ts`: a direct alias of
`distributeTasksSmartly`, used by the redistribute action. -/
def distributeTasksEvenly (tasks : List Task) (totalDays : Int) : List Task :=
  distributeTasksSmartly tasks totalDays

/-- The allocator state after the first `d` iterations of the outer loop. -/
def stateBeforeDay (tasks : List Task) (totalDays : Int) (d : Nat) : AllocState :=
  runDays (buildRotation tasks) totalDays.toNat 0 d (allocStart tasks)

/-- Number of tasks still queued when day `d` is about to be filled. -/
def remainingBeforeDay (tasks : List Task) (totalDays : Int) (d : Nat) : Nat :=
  sumQ (stateBeforeDay tasks totalDays d).queues

/-- Number of output tasks assigned to day `d`. -/
def assignedOnDay (tasks : List Task) (totalDays : Int) (d : Nat) : Nat :=
  ((distributeTasksSmartly tasks totalDays).filter (fun t => t.dayIndex = (d : Int))).length

/-- Erase a task's `dayIndex` (set it to the placeholder `0`); used to state
that the allocator ignores preexisting day assignments. -/
def clearDay (t : Task) : Task := { t with dayIndex := 0 }

/-- Map a function over every queued task. -/
def mapQ (f : Task → Task) (qs : List (String × List Task)) : List (String × List Task) :=
  qs.map (fun p => (p.1, p.2.map f))

/-- Measure of the day-filling loop: it strictly decreases at every `next`
step, which bounds the number of iterations. -/
def fillMeasure (rot : List String) (s : DayState) : Nat :=
  s.remaining + (2 * rot.length + 1 - s.attempts)

/-- Map a function over the queued tasks of a day state. -/
def dsClear (s : DayState) : DayState := { s with queues := mapQ clearDay s.queues }

/-- Map a function over the queued tasks of an allocator state. -/
def asClear (s : AllocState) : AllocState := { s with queues := mapQ clearDay s.queues }

/-- Apply a state transformation under a step result. -/
def StepResult.mapState (f : DayState → DayState) : StepResult → StepResult
  | .done s => .done (f s)
  | .next s => .next (f s)

/-- Concrete tasks whose subject is the empty string, used to exercise the
JS truthiness check in the fallback guard. -/
def taskE1 : Task := ⟨"e1", "", "hw", false, 0, none⟩

def taskE2 : Task := ⟨"e2", "", "hw", false, 0, none⟩

def taskE3 : Task := ⟨"e3", "", "hw", false, 0, none⟩

/-- Three tasks of the empty-string subject. -/
def emptySubjectInput : List Task := [taskE1, taskE2, taskE3]

/-- Concrete well-formed tasks for witnesses. -/
def taskX : Task := ⟨"x1", "math", "algebra", false, 0, none⟩

def taskY : Task := ⟨"y1", "bio", "cells", false, 3, none⟩

def taskZ : Task := ⟨"z1", "math", "geometry", true, 7, none⟩

/-- `taskY` with a different preexisting `dayIndex`. -/
def taskY2 : Task := ⟨"y1", "bio", "cells", false, 11, none⟩

/-- `taskZ` with a different preexisting `dayIndex`. -/
def taskZ2 : Task := ⟨"z1", "math", "geometry", true, 0, none⟩

/-- Two tasks of one subject `"a"`, used to exercise single steps of the
filling loop. -/
def taskA1 : Task := ⟨"a1", "a", "t", false, 0, none⟩

def taskA2 : Task := ⟨"a2", "a", "t", false, 0, none⟩

@[simp] theorem state_done (s : DayState) : (StepResult.done s).state = s := rfl

@[simp] theorem state_next (s : DayState) : (StepResult.next s).state = s := rfl

@[simp] theorem applyPop_queues (day : Int) (s : DayState) (t : Task)
    (qs : List (String × List Task)) : (applyPop day s t qs).queues = qs := rfl

@[simp] theorem applyPop_out (day : Int) (s : DayState) (t : Task)
    (qs : List (String × List Task)) : (applyPop day s t qs).out = s.out ++ [assignDay t day] := rfl

@[simp] theorem applyPop_ptr (day : Int) (s : DayState) (t : Task)
    (qs : List (String × List Task)) : (applyPop day s t qs).ptr = s.ptr := rfl

@[simp] theorem applyPop_added (day : Int) (s : DayState) (t : Task)
    (qs : List (String × List Task)) : (applyPop day s t qs).added = s.added + 1 := rfl

@[simp] theorem applyPop_remaining (day : Int) (s : DayState) (t : Task)
    (qs : List (String × List Task)) : (applyPop day s t qs).remaining = s.remaining - 1 := rfl

@[simp] theorem applyPop_attempts (day : Int) (s : DayState) (t : Task)
    (qs : List (String × List Task)) : (applyPop day s t qs).attempts = s.attempts := rfl

@[simp] theorem bump_queues (rot : List String) (s : DayState) :
    (bump rot s).queues = s.queues := rfl

@[simp] theorem bump_out (rot : List String) (s : DayState) : (bump rot s).out = s.out := rfl

@[simp] theorem bump_ptr (rot : List String) (s : DayState) :
    (bump rot s).ptr = (s.ptr + 1) % rot.length := rfl

@[simp] theorem bump_added (rot : List String) (s : DayState) : (bump rot s).added = s.added := rfl

@[simp] theorem bump_remaining (rot : List String) (s : DayState) :
    (bump rot s).remaining = s.remaining := rfl

@[simp] theorem bump_attempts (rot : List String) (s : DayState) :
    (bump rot s).attempts = s.attempts + 1 := rfl

@[simp] theorem assignDay_dayIndex (t : Task) (day : Int) : (assignDay t day).dayIndex = day := rfl

@[simp] theorem assignDay_id (t : Task) (day : Int) : (assignDay t day).id = t.id := rfl

@[simp] theorem assignDay_subject (t : Task) (day : Int) :
    (assignDay t day).subject = t.subject := rfl

theorem popQueue_keys : ∀ (qs : List (String × List Task)) (subj : String),
    ((popQueue qs subj).2).map Prod.fst = qs.map Prod.fst
  | [], _ => rfl
  | (s, q) :: rest, subj => by
    unfold popQueue
    by_cases h : s = subj
    · rw [if_pos h]
      cases q <;> rfl
    · rw [if_neg h]
      simpa using popQueue_keys rest subj

theorem findNonempty_mem : ∀ (qs : List (String × List Task)) (σ : String),
    findNonempty qs = some σ → σ ∈ qs.map Prod.fst
  | [], _, h => by cases h
  | (s, q) :: rest, σ, h => by
    unfold findNonempty at h
    split at h
    · injection h with h; subst h; exact List.mem_cons_self _ _
    · exact List.mem_cons_of_mem _ (findNonempty_mem rest σ h)

theorem popQueue_isSome_of_findNonempty :
    ∀ (qs : List (String × List Task)) (σ : String), (qs.map Prod.fst).Nodup →
      findNonempty qs = some σ → (popQueue qs σ).1.isSome = true
  | [], _, _, h => by cases h
  | (s, q) :: rest, σ, hnd, h => by
    unfold findNonempty at h
    by_cases hq : 0 < q.length
    · rw [if_pos hq] at h
      injection h with h
      subst h
      unfold popQueue
      rw [if_pos rfl]
      cases q with
      | nil => exact absurd hq (by simp)
      | cons t ts => rfl
    · rw [if_neg hq] at h
      have hnd₁ : (s :: rest.map Prod.fst).Nodup := hnd
      rcases List.nodup_cons.mp hnd₁ with ⟨hs, hrest⟩
      have hne : s ≠ σ := fun he => hs (he ▸ findNonempty_mem rest σ h)
      unfold popQueue
      rw [if_neg hne]
      exact popQueue_isSome_of_findNonempty rest σ hrest h

theorem rotPhase_eq (rot : List String) (day : Int) (s : DayState) :
    (∃ t qs', popQueue s.queues (rot.getD s.ptr "") = (some t, qs')
        ∧ rotPhase rot day s = bump rot (applyPop day s t qs'))
  ∨ ((popQueue s.queues (rot.getD s.ptr "")).1 = none ∧ rotPhase rot day s = bump rot s) := by
  rcases hp : popQueue s.queues (rot.getD s.ptr "") with ⟨o, qs'⟩
  cases o with
  | some t => exact Or.inl ⟨t, qs', rfl, by unfold rotPhase; rw [hp]⟩
  | none => exact Or.inr ⟨rfl, by unfold rotPhase; rw [hp]⟩

theorem fallbackPhase_cases (rot : List String) (day : Int) (target : Nat) (s : DayState) :
    fallbackPhase rot day target s = .done s
  ∨ (fallbackPhase rot day target s = .next s
      ∧ (¬(2 * rot.length < s.attempts ∧ s.added < target)
         ∨ ∃ σ, findNonempty s.queues = some σ ∧ σ ≠ ""
             ∧ (popQueue s.queues σ).1 = none))
  ∨ ∃ σ t qs', findNonempty s.queues = some σ ∧ σ ≠ ""
      ∧ popQueue s.queues σ = (some t, qs')
      ∧ (2 * rot.length < s.attempts ∧ s.added < target)
      ∧ fallbackPhase rot day target s = .next (applyPop day s t qs') := by
  unfold fallbackPhase
  by_cases hc : 2 * rot.length < s.attempts ∧ s.added < target
  · rw [if_pos hc]
    rcases hf : findNonempty s.queues with _ | σ
    · exact Or.inl rfl
    · dsimp only
      by_cases hσ : σ = ""
      · rw [if_pos hσ]
        exact Or.inl rfl
      · rw [if_neg hσ]
        rcases hp : popQueue s.queues σ with ⟨o, qs'⟩
        cases o with
        | some t =>
          exact Or.inr (Or.inr ⟨σ, t, qs', rfl, hσ, hp, hc, rfl⟩)
        | none =>
          exact Or.inr (Or.inl ⟨rfl, Or.inr ⟨σ, rfl, hσ, by rw [hp]⟩⟩)
  · rw [if_neg hc]
    exact Or.inr (Or.inl ⟨rfl, Or.inl hc⟩)

theorem fillStep_out (rot : List String) (day : Int) (target : Nat) (s : DayState) :
    ∃ new, (fillStep rot day target s).state.out = s.out ++ new
      ∧ (∀ x ∈ new, x.dayIndex = day)
      ∧ new.length + s.added = (fillStep rot day target s).state.added := by
  by_cases hcond : s.added < target ∧ 0 < s.remaining
  · unfold fillStep
    rw [if_pos hcond]
    rcases rotPhase_eq rot day s with ⟨t, qs', _, heq⟩ | ⟨_, heq⟩ <;> rw [heq]
    · rcases fallbackPhase_cases rot day target (bump rot (applyPop day s t qs')) with
        hc | ⟨hc, _⟩ | ⟨σ, t₂, qs₂, _, _, _, _, hc⟩ <;> rw [hc]
      · exact ⟨[assignDay t day], by simp, by simp, by simp; omega⟩
      · exact ⟨[assignDay t day], by simp, by simp, by simp; omega⟩
      · exact ⟨[assignDay t day, assignDay t₂ day], by simp, by simp, by simp; omega⟩
    · rcases fallbackPhase_cases rot day target (bump rot s) with
        hc | ⟨hc, _⟩ | ⟨σ, t₂, qs₂, _, _, _, _, hc⟩ <;> rw [hc]
      · exact ⟨[], by simp, by simp, by simp⟩
      · exact ⟨[], by simp, by simp, by simp⟩
      · exact ⟨[assignDay t₂ day], by simp, by simp, by simp; omega⟩
  · unfold fillStep
    rw [if_neg hcond]
    exact ⟨[], by simp, by simp, by simp⟩

theorem fillStep_added_le (rot : List String) (day : Int) (target : Nat) (s : DayState)
    (h : s.added ≤ target) : (fillStep rot day target s).state.added ≤ target := by
  by_cases hcond : s.added < target ∧ 0 < s.remaining
  · unfold fillStep
    rw [if_pos hcond]
    rcases rotPhase_eq rot day s with ⟨t, qs', _, heq⟩ | ⟨_, heq⟩ <;> rw [heq]
    · rcases fallbackPhase_cases rot day target (bump rot (applyPop day s t qs')) with
        hc | ⟨hc, _⟩ | ⟨σ, t₂, qs₂, _, _, _, hcnd, hc⟩ <;> rw [hc]
      · simpa using hcond.1
      · simpa using hcond.1
      · have := hcnd.2
        simp at this ⊢
        omega
    · rcases fallbackPhase_cases rot day target (bump rot s) with
        hc | ⟨hc, _⟩ | ⟨σ, t₂, qs₂, _, _, _, hcnd, hc⟩ <;> rw [hc]
      · simpa using h
      · simpa using h
      · have := hcnd.2
        simp at this ⊢
        omega
  · unfold fillStep
    rw [if_neg hcond]
    simpa using h

theorem fillStep_keys (rot : List String) (day : Int) (target : Nat) (s : DayState) :
    ((fillStep rot day target s).state.queues).map Prod.fst = s.queues.map Prod.fst := by
  by_cases hcond : s.added < target ∧ 0 < s.remaining
  · unfold fillStep
    rw [if_pos hcond]
    rcases rotPhase_eq rot day s with ⟨t, qs', hp, heq⟩ | ⟨_, heq⟩ <;> rw [heq]
    · have hk : qs'.map Prod.fst = s.queues.map Prod.fst := by
        have := popQueue_keys s.queues (rot.getD s.ptr "")
        rw [hp] at this
        exact this
      rcases fallbackPhase_cases rot day target (bump rot (applyPop day s t qs')) with
        hc | ⟨hc, _⟩ | ⟨σ, t₂, qs₂, _, _, hp₂, _, hc⟩ <;> rw [hc]
      · simpa using hk
      · simpa using hk
      · have hk₂ : qs₂.map Prod.fst = qs'.map Prod.fst := by
          have := popQueue_keys (bump rot (applyPop day s t qs')).queues σ
          rw [hp₂] at this
          simpa using this
        simp [hk₂, hk]
    · rcases fallbackPhase_cases rot day target (bump rot s) with
        hc | ⟨hc, _⟩ | ⟨σ, t₂, qs₂, _, _, hp₂, _, hc⟩ <;> rw [hc]
      · simp
      · simp
      · have hk₂ : qs₂.map Prod.fst = s.queues.map Prod.fst := by
          have := popQueue_keys (bump rot s).queues σ
          rw [hp₂] at this
          simpa using this
        simpa using hk₂
  · unfold fillStep
    rw [if_neg hcond]
    simp

theorem fillDay_out (rot : List String) (day : Int) (target : Nat) :
    ∀ (fuel : Nat) (s : DayState), ∃ new,
      (fillDay rot day target fuel s).out = s.out ++ new
        ∧ (∀ x ∈ new, x.dayIndex = day)
        ∧ new.length + s.added = (fillDay rot day target fuel s).added
  | 0, s => ⟨[], by simp [fillDay], by simp, by simp [fillDay]⟩
  | fuel + 1, s => by
    obtain ⟨new₁, h1, h2, h3⟩ := fillStep_out rot day target s
    rcases hstep : fillStep rot day target s with s' | s' <;> rw [hstep] at h1 h3 <;>
      simp only [state_done, state_next] at h1 h3
    · exact ⟨new₁, by simp [fillDay, hstep, h1], h2, by simp [fillDay, hstep]; omega⟩
    · obtain ⟨new₂, g1, g2, g3⟩ := fillDay_out rot day target fuel s'
      refine ⟨new₁ ++ new₂, ?_, ?_, ?_⟩
      · simp only [fillDay, hstep]
        rw [g1, h1, List.append_assoc]
      · intro x hx
        rcases List.mem_append.mp hx with hx | hx
        · exact h2 x hx
        · exact g2 x hx
      · simp only [fillDay, hstep]
        rw [List.length_append]
        omega

theorem fillDay_added_le (rot : List String) (day : Int) (target : Nat) :
    ∀ (fuel : Nat) (s : DayState), s.added ≤ target →
      (fillDay rot day target fuel s).added ≤ target
  | 0, s, h => by simpa [fillDay] using h
  | fuel + 1, s, h => by
    have hs := fillStep_added_le rot day target s h
    rcases hstep : fillStep rot day target s with s' | s' <;> rw [hstep] at hs <;>
      simp only [state_done, state_next] at hs
    · simpa [fillDay, hstep] using hs
    · simpa [fillDay, hstep] using fillDay_added_le rot day target fuel s' hs

theorem fillDay_keys (rot : List String) (day : Int) (target : Nat) :
    ∀ (fuel : Nat) (s : DayState),
      ((fillDay rot day target fuel s).queues).map Prod.fst = s.queues.map Prod.fst
  | 0, s => by simp [fillDay]
  | fuel + 1, s => by
    have hs := fillStep_keys rot day target s
    rcases hstep : fillStep rot day target s with s' | s' <;> rw [hstep] at hs <;>
      simp only [state_done, state_next] at hs
    · simpa [fillDay, hstep] using hs
    · rw [show fillDay rot day target (fuel + 1) s = fillDay rot day target fuel s' by
        simp [fillDay, hstep]]
      rw [fillDay_keys rot day target fuel s', hs]

theorem dayStep_out (rot : List String) (D day : Nat) (s : AllocState) :
    ∃ new, (dayStep rot D day s).out = s.out ++ new
      ∧ (∀ x ∈ new, x.dayIndex = (day : Int))
      ∧ new.length ≤ (sumQ s.queues + (D - day) - 1) / (D - day) := by
  obtain ⟨new, h1, h2, h3⟩ := fillDay_out rot (day : Int)
    ((sumQ s.queues + (D - day) - 1) / (D - day)) (fillFuel rot (sumQ s.queues))
    ⟨s.queues, s.out, s.ptr, 0, sumQ s.queues, 0⟩
  have h4 := fillDay_added_le rot (day : Int)
    ((sumQ s.queues + (D - day) - 1) / (D - day)) (fillFuel rot (sumQ s.queues))
    ⟨s.queues, s.out, s.ptr, 0, sumQ s.queues, 0⟩ (Nat.zero_le _)
  refine ⟨new, ?_, h2, by omega⟩
  simp only [dayStep]
  exact h1

theorem pairwise_of_const (l : List Task) (d : Int) (h : ∀ x ∈ l, x.dayIndex = d) :
    l.Pairwise (fun a b => a.dayIndex ≤ b.dayIndex) := by
  induction l with
  | nil => exact List.Pairwise.nil
  | cons a rest ih =>
    refine List.Pairwise.cons ?_ (ih fun x hx => h x (List.mem_cons_of_mem _ hx))
    intro b hb
    rw [h a (List.mem_cons_self _ _), h b (List.mem_cons_of_mem _ hb)]

theorem runDays_out (rot : List String) (D : Nat) :
    ∀ (k day : Nat) (s : AllocState), ∃ rest,
      (runDays rot D day k s).out = s.out ++ rest
        ∧ (∀ x ∈ rest, (day : Int) ≤ x.dayIndex ∧ x.dayIndex < (day : Int) + (k : Int))
        ∧ rest.Pairwise (fun a b => a.dayIndex ≤ b.dayIndex)
  | 0, day, s => ⟨[], by simp [runDays], by simp, by simp⟩
  | k + 1, day, s => by
    by_cases h0 : sumQ s.queues = 0
    · exact ⟨[], by simp [runDays, h0], by simp, by simp⟩
    · obtain ⟨new, h1, h2, h3⟩ := dayStep_out rot D day s
      obtain ⟨rest, g1, g2, g3⟩ := runDays_out rot D k (day + 1) (dayStep rot D day s)
      refine ⟨new ++ rest, ?_, ?_, ?_⟩
      · rw [show runDays rot D day (k + 1) s = runDays rot D (day + 1) k (dayStep rot D day s) by
          simp [runDays, h0]]
        rw [g1, h1, List.append_assoc]
      · intro x hx
        rcases List.mem_append.mp hx with hx | hx
        · have := h2 x hx
          constructor
          · rw [this]
          · rw [this]
            push_cast
            omega
        · obtain ⟨ha, hb⟩ := g2 x hx
          constructor
          · refine le_trans ?_ ha
            push_cast
            omega
          · refine lt_of_lt_of_le hb ?_
            push_cast
            omega
      · rw [List.pairwise_append]
        refine ⟨pairwise_of_const new _ h2, g3, ?_⟩
        intro a ha b hb
        rw [h2 a ha]
        refine le_trans ?_ (g2 b hb).1
        push_cast
        omega

/-- Claim C4: every output item has `0 <= dayIndex < totalDays` and the output
is emitted in day-ascending order (non-decreasing `dayIndex`); within a day the
emission order is the pick order by construction of the output list. -/
theorem claim_c4_range_order (tasks : List Task) (totalDays : Int) :
    (∀ t ∈ distributeTasksSmartly tasks totalDays, 0 ≤ t.dayIndex ∧ t.dayIndex < totalDays)
      ∧ (distributeTasksSmartly tasks totalDays).Pairwise (fun a b => a.dayIndex ≤ b.dayIndex) := by
  obtain ⟨rest, h1, h2, h3⟩ :=
    runDays_out (buildRotation tasks) totalDays.toNat totalDays.toNat 0 (allocStart tasks)
  have hout : distributeTasksSmartly tasks totalDays = rest := by
    unfold distributeTasksSmartly
    rw [h1]
    simp [allocStart]
  constructor
  · intro t ht
    rw [hout] at ht
    obtain ⟨ha, hb⟩ := h2 t ht
    have hmax : (totalDays.toNat : Int) = max totalDays 0 := Int.toNat_eq_max totalDays
    constructor
    · simpa using ha
    · simp only [Int.ofNat_zero, zero_add] at hb
      rw [hmax] at hb
      simp only [Int.ofNat_zero] at ha
      omega
  · rw [hout]
    exact h3

/-- Claim C4 witness: the range and ordering invariant at a concrete input. -/
theorem claim_c4_range_order_witness :
    (∀ t ∈ distributeTasksSmartly [taskX, taskY, taskZ] 2, 0 ≤ t.dayIndex ∧ t.dayIndex < 2)
      ∧ (distributeTasksSmartly [taskX, taskY, taskZ] 2).Pairwise
          (fun a b => a.dayIndex ≤ b.dayIndex) :=
  claim_c4_range_order [taskX, taskY, taskZ] 2

theorem fillStep_measure (rot : List String) (day : Int) (target : Nat) (s s' : DayState)
    (hnd : (s.queues.map Prod.fst).Nodup)
    (h : fillStep rot day target s = .next s') :
    fillMeasure rot s' < fillMeasure rot s := by
  by_cases hcond : s.added < target ∧ 0 < s.remaining
  · unfold fillStep at h
    rw [if_pos hcond] at h
    have hrem := hcond.2
    rcases rotPhase_eq rot day s with ⟨t, qs', hp, heq⟩ | ⟨hp, heq⟩
    · rw [heq] at h
      have hk : qs'.map Prod.fst = s.queues.map Prod.fst := by
        have := popQueue_keys s.queues (rot.getD s.ptr "")
        rw [hp] at this
        exact this
      rcases fallbackPhase_cases rot day target (bump rot (applyPop day s t qs')) with
        hc | ⟨hc, _⟩ | ⟨σ, t₂, qs₂, _, _, _, _, hc⟩ <;> rw [hc] at h
      · cases h
      · injection h with h
        subst h
        simp only [fillMeasure, bump_remaining, bump_attempts, applyPop_remaining,
          applyPop_attempts]
        omega
      · injection h with h
        subst h
        simp only [fillMeasure, applyPop_remaining, applyPop_attempts, bump_remaining,
          bump_attempts]
        omega
    · rw [heq] at h
      rcases fallbackPhase_cases rot day target (bump rot s) with
        hc | ⟨hc, hside⟩ | ⟨σ, t₂, qs₂, _, _, _, _, hc⟩ <;> rw [hc] at h
      · cases h
      · injection h with h
        subst h
        rcases hside with hside | ⟨σ, hf, hσ, hpn⟩
        · have hatt : ¬(2 * rot.length < s.attempts + 1) := by
            intro hlt
            exact hside ⟨by simpa using hlt, by simpa using hcond.1⟩
          simp only [fillMeasure, bump_remaining, bump_attempts]
          omega
        · exfalso
          have hkeys : (((bump rot s).queues).map Prod.fst).Nodup := by simpa using hnd
          have := popQueue_isSome_of_findNonempty _ _ hkeys hf
          rw [hpn] at this
          cases this
      · injection h with h
        subst h
        simp only [fillMeasure, applyPop_remaining, applyPop_attempts, bump_remaining,
          bump_attempts]
        omega
  · unfold fillStep at h
    rw [if_neg hcond] at h
    cases h

theorem fillDay_stable (rot : List String) (day : Int) (target : Nat) :
    ∀ (fuel : Nat) (s : DayState), (s.queues.map Prod.fst).Nodup →
      fillMeasure rot s < fuel →
      ∀ (k : Nat), fillDay rot day target fuel s = fillDay rot day target (fuel + k) s
  | 0, s, _, hμ, _ => absurd hμ (Nat.not_lt_zero _)
  | fuel + 1, s, hnd, hμ, k => by
    have hkeys := fillStep_keys rot day target s
    rcases hstep : fillStep rot day target s with s' | s'
    · rw [show fuel + 1 + k = (fuel + k) + 1 by omega]
      simp [fillDay, hstep]
    · have hμ' : fillMeasure rot s' < fillMeasure rot s := fillStep_measure rot day target s s' hnd hstep
      have hnd' : (s'.queues.map Prod.fst).Nodup := by
        rw [hstep] at hkeys
        simp only [state_next] at hkeys
        rw [hkeys]
        exact hnd
      rw [show fuel + 1 + k = (fuel + k) + 1 by omega]
      simp only [fillDay, hstep]
      exact fillDay_stable rot day target fuel s' hnd' (by omega) k

/-- Claim C10: the per-day filling loop always exits within the explicit
iteration budget `fillFuel` the allocator hands it: running the loop with any
larger budget produces exactly the same state, so no input makes the loop run
forever; the outer loop is structurally bounded by `totalDays` iterations. -/
theorem claim_c10_loop_terminates (rot : List String) (day : Int) (target : Nat)
    (s : DayState) (k : Nat) (hnd : (s.queues.map Prod.fst).Nodup) :
    fillDay rot day target (fillFuel rot s.remaining) s
      = fillDay rot day target (fillFuel rot s.remaining + k) s := by
  apply fillDay_stable rot day target (fillFuel rot s.remaining) s hnd
  unfold fillFuel fillMeasure
  omega

/-- Claim C10 witness: budget irrelevance beyond the bound at a concrete
state. -/
theorem claim_c10_loop_terminates_witness :
    (((mapQ clearDay (buildQueues [taskX, taskY])).map Prod.fst).Nodup)
      ∧ fillDay (buildRotation [taskX, taskY]) 0 2
          (fillFuel (buildRotation [taskX, taskY]) 2)
          ⟨mapQ clearDay (buildQueues [taskX, taskY]), [], 0, 0, 2, 0⟩
        = fillDay (buildRotation [taskX, taskY]) 0 2
            (fillFuel (buildRotation [taskX, taskY]) 2 + 40)
            ⟨mapQ clearDay (buildQueues [taskX, taskY]), [], 0, 0, 2, 0⟩ :=
  ⟨by decide, claim_c10_loop_terminates (buildRotation [taskX, taskY]) 0 2
    ⟨mapQ clearDay (buildQueues [taskX, taskY]), [], 0, 0, 2, 0⟩ 40 (by decide)⟩

theorem runDays_empty (rot : List String) (D : Nat) :
    ∀ (k day : Nat) (s : AllocState), sumQ s.queues = 0 → runDays rot D day k s = s
  | 0, _, _, _ => rfl
  | k + 1, day, s, h => by simp [runDays, h]

theorem runDays_split (rot : List String) (D : Nat) :
    ∀ (k₁ k₂ day : Nat) (s : AllocState),
      runDays rot D day (k₁ + k₂) s
        = runDays rot D (day + k₁) k₂ (runDays rot D day k₁ s)
  | 0, k₂, day, s => by simp [runDays]
  | k₁ + 1, k₂, day, s => by
    by_cases h0 : sumQ s.queues = 0
    · rw [runDays_empty rot D (k₁ + 1 + k₂) day s h0, runDays_empty rot D (k₁ + 1) day s h0,
        runDays_empty rot D k₂ (day + (k₁ + 1)) s h0]
    · rw [show k₁ + 1 + k₂ = (k₁ + k₂) + 1 by omega]
      rw [show runDays rot D day ((k₁ + k₂) + 1) s
          = runDays rot D (day + 1) (k₁ + k₂) (dayStep rot D day s) by simp [runDays, h0]]
      rw [runDays_split rot D k₁ k₂ (day + 1) (dayStep rot D day s)]
      rw [show runDays rot D day (k₁ + 1) s
          = runDays rot D (day + 1) k₁ (dayStep rot D day s) by simp [runDays, h0]]
      rw [show day + 1 + k₁ = day + (k₁ + 1) by omega]

theorem runDays_day_filter (rot : List String) (D d m : Nat) (s : AllocState)
    (hout : ∀ x ∈ s.out, x.dayIndex < (d : Int)) :
    (((runDays rot D d (m + 1) s).out).filter (fun t => t.dayIndex = (d : Int))).length
      ≤ (sumQ s.queues + (D - d) - 1) / (D - d) := by
  by_cases h0 : sumQ s.queues = 0
  · rw [runDays_empty rot D (m + 1) d s h0]
    have hnil : s.out.filter (fun t => t.dayIndex = (d : Int)) = [] := by
      rw [List.filter_eq_nil_iff]
      intro x hx
      have := hout x hx
      simp only [decide_eq_true_eq]
      omega
    rw [hnil]
    simp
  · rw [show runDays rot D d (m + 1) s = runDays rot D (d + 1) m (dayStep rot D d s) by
      simp [runDays, h0]]
    obtain ⟨new, q1, q2, q3⟩ := dayStep_out rot D d s
    obtain ⟨rest, r1, r2, _⟩ := runDays_out rot D m (d + 1) (dayStep rot D d s)
    rw [r1, q1, List.append_assoc, List.filter_append, List.filter_append]
    have f1 : s.out.filter (fun t => t.dayIndex = (d : Int)) = [] := by
      rw [List.filter_eq_nil_iff]
      intro x hx
      have := hout x hx
      simp only [decide_eq_true_eq]
      omega
    have f2 : new.filter (fun t => t.dayIndex = (d : Int)) = new := by
      rw [List.filter_eq_self]
      intro x hx
      simp only [decide_eq_true_eq]
      exact q2 x hx
    have f3 : rest.filter (fun t => t.dayIndex = (d : Int)) = [] := by
      rw [List.filter_eq_nil_iff]
      intro x hx
      have := (r2 x hx).1
      simp only [decide_eq_true_eq]
      push_cast at this
      omega
    rw [f1, f2, f3]
    simpa using q3

/-- Claim C2: on every day `d` of the schedule, the number of items assigned
to day `d` is at most the ceiling of the number of items still queued at the
start of day `d` divided by the number of days left (`totalDays - d`). -/
theorem claim_c2_pacing (tasks : List Task) (totalDays : Int) (d : Nat)
    (h : 0 < totalDays) (hd : d < totalDays.toNat) :
    assignedOnDay tasks totalDays d
      ≤ (remainingBeforeDay tasks totalDays d + (totalDays.toNat - d) - 1)
          / (totalDays.toNat - d) := by
  have hsplit := runDays_split (buildRotation tasks) totalDays.toNat d (totalDays.toNat - d) 0
    (allocStart tasks)
  rw [show d + (totalDays.toNat - d) = totalDays.toNat by omega] at hsplit
  simp only [Nat.zero_add] at hsplit
  obtain ⟨m, hm⟩ : ∃ m, totalDays.toNat - d = m + 1 := ⟨totalDays.toNat - d - 1, by omega⟩
  obtain ⟨rest₀, p1, p2, _⟩ :=
    runDays_out (buildRotation tasks) totalDays.toNat d 0 (allocStart tasks)
  have hout : ∀ x ∈ (stateBeforeDay tasks totalDays d).out, x.dayIndex < (d : Int) := by
    intro x hx
    unfold stateBeforeDay at hx
    rw [p1] at hx
    have hx' : x ∈ rest₀ := by simpa [allocStart] using hx
    have := (p2 x hx').2
    simpa using this
  have hmain := runDays_day_filter (buildRotation tasks) totalDays.toNat d m
    (stateBeforeDay tasks totalDays d) hout
  unfold stateBeforeDay at hmain
  rw [hm] at hsplit
  unfold assignedOnDay remainingBeforeDay
  unfold distributeTasksSmartly
  rw [hsplit]
  unfold stateBeforeDay
  exact hmain

/-- Claim C2 witness: the pacing bound at a concrete input and day. -/
theorem claim_c2_pacing_witness :
    (0 : Int) < 2 ∧ 1 < (2 : Int).toNat
      ∧ assignedOnDay [taskX, taskY, taskZ] 2 1
          ≤ (remainingBeforeDay [taskX, taskY, taskZ] 2 1 + ((2 : Int).toNat - 1) - 1)
              / ((2 : Int).toNat - 1) :=
  ⟨by decide, by decide, claim_c2_pacing [taskX, taskY, taskZ] 2 1 (by decide) (by decide)⟩

theorem mem_insertDistinct_of_mem {acc : List String} {a : String} (s : String)
    (h : a ∈ acc) : a ∈ insertDistinct acc s := by
  unfold insertDistinct
  split
  · exact h
  · exact List.mem_append_left _ h

theorem self_mem_insertDistinct (acc : List String) (s : String) :
    s ∈ insertDistinct acc s := by
  unfold insertDistinct
  split
  · assumption
  · exact List.mem_append_right _ (List.mem_singleton_self s)

theorem mem_foldl_insertDistinct_of_mem {a : String} :
    ∀ (l : List String) (acc : List String), a ∈ acc → a ∈ l.foldl insertDistinct acc
  | [], _, h => h
  | s :: rest, acc, h =>
    mem_foldl_insertDistinct_of_mem rest (insertDistinct acc s) (mem_insertDistinct_of_mem s h)

theorem mem_foldl_insertDistinct {a : String} :
    ∀ (l : List String) (acc : List String), a ∈ l → a ∈ l.foldl insertDistinct acc := by
  intro l
  induction l with
  | nil => intro acc h; cases h
  | cons s rest ih =>
    intro acc h
    rcases List.mem_cons.mp h with h | h
    · subst h
      exact mem_foldl_insertDistinct_of_mem rest _ (self_mem_insertDistinct acc a)
    · exact ih _ h

theorem nodup_insertDistinct {acc : List String} (s : String) (h : acc.Nodup) :
    (insertDistinct acc s).Nodup := by
  unfold insertDistinct
  split
  · exact h
  · simpa [List.nodup_append] using ⟨h, by assumption⟩

theorem nodup_foldl_insertDistinct :
    ∀ (l : List String) (acc : List String), acc.Nodup → (l.foldl insertDistinct acc).Nodup
  | [], _, h => h
  | s :: rest, acc, h =>
    nodup_foldl_insertDistinct rest (insertDistinct acc s) (nodup_insertDistinct s h)

theorem foldl_insertDistinct_eq :
    ∀ (l : List String) (acc : List String), l.Nodup →
      l.foldl insertDistinct acc = acc ++ l.filter (fun s => s ∉ acc) := by
  intro l
  induction l with
  | nil => intro acc _; simp
  | cons s rest ih =>
    intro acc h
    rcases List.nodup_cons.mp h with ⟨hs, hrest⟩
    by_cases hmem : s ∈ acc
    · have : insertDistinct acc s = acc := by simp [insertDistinct, hmem]
      simp only [List.foldl_cons, this, List.filter_cons]
      have : (decide (s ∉ acc)) = false := by simp [hmem]
      rw [this]
      exact ih acc hrest
    · have h1 : insertDistinct acc s = acc ++ [s] := by simp [insertDistinct, hmem]
      simp only [List.foldl_cons, h1, List.filter_cons]
      have h2 : (decide (s ∉ acc)) = true := by simp [hmem]
      rw [h2]
      rw [ih (acc ++ [s]) hrest]
      have h3 : rest.filter (fun x => x ∉ acc ++ [s]) = rest.filter (fun x => x ∉ acc) := by
        apply List.filter_congr
        intro x hx
        have hxs : x ≠ s := fun h => hs (h ▸ hx)
        simp [List.mem_append, hxs]
      rw [h3]
      simp

theorem allSubjects_eq_foldl (tasks : List Task) :
    allSubjects tasks = (tasks.map Task.subject).foldl insertDistinct [] := by
  unfold allSubjects
  rw [List.foldl_map]

theorem allSubjects_nodup (tasks : List Task) : (allSubjects tasks).Nodup := by
  rw [allSubjects_eq_foldl]
  exact nodup_foldl_insertDistinct _ _ List.nodup_nil

theorem subject_mem_allSubjects {tasks : List Task} {t : Task} (h : t ∈ tasks) :
    t.subject ∈ allSubjects tasks := by
  rw [allSubjects_eq_foldl]
  exact mem_foldl_insertDistinct _ _ (List.mem_map_of_mem Task.subject h)

/-- Claim C7: the rotation is the five canonical subjects followed by the
other distinct subjects of the input in first-occurrence order, appended once
each (the rotation has no duplicates), and every subject present in the input
appears in the rotation. -/
theorem claim_c7_rotation (tasks : List Task) :
    buildRotation tasks
        = balancedRotation ++ (allSubjects tasks).filter (fun s => s ∉ balancedRotation)
      ∧ (buildRotation tasks).Nodup
      ∧ ∀ t ∈ tasks, t.subject ∈ buildRotation tasks := by
  refine ⟨foldl_insertDistinct_eq _ _ (allSubjects_nodup tasks), ?_, ?_⟩
  · exact nodup_foldl_insertDistinct _ _ (by decide)
  · intro t ht
    exact mem_foldl_insertDistinct _ _ (subject_mem_allSubjects ht)

/-- Claim C7 witness: the rotation characterisation at a concrete input. -/
theorem claim_c7_rotation_witness :
    buildRotation [taskX, taskY]
        = balancedRotation ++ (allSubjects [taskX, taskY]).filter (fun s => s ∉ balancedRotation)
      ∧ (buildRotation [taskX, taskY]).Nodup
      ∧ ∀ t ∈ [taskX, taskY], t.subject ∈ buildRotation [taskX, taskY] :=
  claim_c7_rotation [taskX, taskY]

/-- Claim C8: the redistribute entry point `distributeTasksEvenly` is
definitionally the same allocation function as `distributeTasksSmartly`. -/
theorem claim_c8_redistribute_alias (tasks : List Task) (totalDays : Int) :
    distributeTasksEvenly tasks totalDays = distributeTasksSmartly tasks totalDays := rfl

/-- Claim C6: with `totalDays <= 0` the outer loop runs no iteration and the
returned list is empty, so no item is assigned a day by the core. -/
theorem claim_c6_nonpositive_days (tasks : List Task) (totalDays : Int)
    (h : totalDays ≤ 0) : distributeTasksSmartly tasks totalDays = [] := by
  unfold distributeTasksSmartly
  rw [Int.toNat_of_nonpos h]
  rfl

/-- Claim C6 witness: the degenerate day counts at concrete inputs. -/
theorem claim_c6_nonpositive_days_witness :
    ((-3 : Int) ≤ 0 ∧ distributeTasksSmartly [taskX, taskY] (-3) = [])
      ∧ ((0 : Int) ≤ 0 ∧ distributeTasksSmartly [taskX] 0 = []) :=
  ⟨⟨by decide, claim_c6_nonpositive_days [taskX, taskY] (-3) (by decide)⟩,
   ⟨by decide, claim_c6_nonpositive_days [taskX] 0 (by decide)⟩⟩

/-- Claim C5 counterexample: in a single pass of the filling loop starting
with `attempts = 3` (already past the `2 * rotationLength = 2` threshold), the
rotation pop still happens and a fallback pop happens as well (two items are
emitted by one pass), and the attempts counter ends at `4`, not `0`, although
items were successfully popped.  So the counter is never reset on success and
strict rotation is not abandoned once the threshold is exceeded. -/
theorem claim_c5_attempts_counterexample :
    fillStep ["a"] 0 5 ⟨[("a", [taskA1, taskA2])], [], 0, 0, 2, 3⟩
        = .next ⟨[("a", [])], [assignDay taskA1 0, assignDay taskA2 0], 0, 2, 0, 4⟩
      ∧ 2 * (["a"] : List String).length < 3 + 1 := by
  decide

/-- Claim C5 as amended: the attempts counter is incremented on every pass of
the filling loop and never reset, and once it exceeds twice the rotation
length while the day's quota is unmet, each pass additionally pops from the
first queue in scan order holding items (whose subject label is a non-empty
string), while the rotation pop attempt still runs first. -/
theorem claim_c5_attempts_amended :
    (∀ (rot : List String) (day : Int) (target : Nat) (s s' : DayState),
        fillStep rot day target s = .next s' → s'.attempts = s.attempts + 1)
      ∧ (∀ (rot : List String) (day : Int) (target : Nat) (s : DayState) (σ : String)
          (t : Task) (qs' : List (String × List Task)),
          s.added < target → 0 < s.remaining →
          (popQueue s.queues (rot.getD s.ptr "")).1 = none →
          2 * rot.length < s.attempts + 1 →
          findNonempty s.queues = some σ → σ ≠ "" →
          popQueue s.queues σ = (some t, qs') →
          fillStep rot day target s
            = .next ⟨qs', s.out ++ [assignDay t day], (s.ptr + 1) % rot.length,
                s.added + 1, s.remaining - 1, s.attempts + 1⟩) := by
  constructor
  · intro rot day target s s' h
    by_cases hcond : s.added < target ∧ 0 < s.remaining
    · unfold fillStep at h
      rw [if_pos hcond] at h
      rcases rotPhase_eq rot day s with ⟨t, qs', _, heq⟩ | ⟨_, heq⟩ <;> rw [heq] at h <;>
        rcases fallbackPhase_cases rot day target _ with
          hc | ⟨hc, _⟩ | ⟨σ, t₂, qs₂, _, _, _, _, hc⟩ <;> rw [hc] at h <;>
        first
          | (injection h with h; subst h; simp)
          | (cases h)
    · unfold fillStep at h
      rw [if_neg hcond] at h
      cases h
  · intro rot day target s σ t qs' h1 h2 h3 h4 h5 h6 h7
    unfold fillStep
    rw [if_pos ⟨h1, h2⟩]
    rcases rotPhase_eq rot day s with ⟨t₀, qs₀, hp, _⟩ | ⟨_, heq⟩
    · rw [hp] at h3
      cases h3
    · rw [heq]
      unfold fallbackPhase
      rw [if_pos ⟨by simpa using h4, by simpa using h1⟩]
      have hfm : findNonempty (bump rot s).queues = some σ := by simpa using h5
      rw [hfm]
      dsimp only
      rw [if_neg h6]
      have hpm : popQueue (bump rot s).queues σ = (some t, qs') := by simpa using h7
      rw [hpm]
      rfl

/-- Claim C5 amended witness: one fallback pass at a concrete state, and the
attempts increment read off from it. -/
theorem claim_c5_attempts_amended_witness :
    fillStep ["b"] 0 1 ⟨[("a", [taskA1])], [], 0, 0, 1, 9⟩
        = .next ⟨[("a", [])], [assignDay taskA1 0], (0 + 1) % 1, 0 + 1, 1 - 1, 9 + 1⟩
      ∧ (⟨[("a", [])], [assignDay taskA1 0], (0 + 1) % 1, 0 + 1, 1 - 1,
            9 + 1⟩ : DayState).attempts = 9 + 1 := by
  have h2 := claim_c5_attempts_amended.2 ["b"] 0 1 ⟨[("a", [taskA1])], [], 0, 0, 1, 9⟩ "a"
    taskA1 [("a", [])] (by decide) (by decide) (by decide) (by decide) (by decide) (by decide)
    (by decide)
  exact ⟨h2, claim_c5_attempts_amended.1 ["b"] 0 1 _ _ h2⟩

@[simp] theorem dsClear_queues (s : DayState) : (dsClear s).queues = mapQ clearDay s.queues := rfl

@[simp] theorem dsClear_out (s : DayState) : (dsClear s).out = s.out := rfl

@[simp] theorem dsClear_ptr (s : DayState) : (dsClear s).ptr = s.ptr := rfl

@[simp] theorem dsClear_added (s : DayState) : (dsClear s).added = s.added := rfl

@[simp] theorem dsClear_remaining (s : DayState) : (dsClear s).remaining = s.remaining := rfl

@[simp] theorem dsClear_attempts (s : DayState) : (dsClear s).attempts = s.attempts := rfl

theorem sumQ_mapQ (f : Task → Task) (qs : List (String × List Task)) :
    sumQ (mapQ f qs) = sumQ qs := by
  unfold sumQ mapQ
  rw [List.map_map]
  congr 1
  apply List.map_congr_left
  intro p _
  simp

theorem findNonempty_mapQ (f : Task → Task) :
    ∀ qs : List (String × List Task), findNonempty (mapQ f qs) = findNonempty qs
  | [] => rfl
  | (s, q) :: rest => by
    show findNonempty ((s, q.map f) :: mapQ f rest) = _
    unfold findNonempty
    rw [List.length_map]
    by_cases hq : 0 < q.length
    · rw [if_pos hq, if_pos hq]
    · rw [if_neg hq, if_neg hq]
      exact findNonempty_mapQ f rest

theorem popQueue_mapQ (f : Task → Task) :
    ∀ (qs : List (String × List Task)) (subj : String),
      popQueue (mapQ f qs) subj = ((popQueue qs subj).1.map f, mapQ f (popQueue qs subj).2)
  | [], _ => rfl
  | (s, q) :: rest, subj => by
    show popQueue ((s, q.map f) :: mapQ f rest) subj = _
    unfold popQueue
    by_cases hs : s = subj
    · rw [if_pos hs, if_pos hs]
      cases q with
      | nil => rfl
      | cons t ts => rfl
    · rw [if_neg hs, if_neg hs]
      rw [popQueue_mapQ f rest subj]
      rfl

theorem rotPhase_clear (rot : List String) (day : Int) (s : DayState) :
    rotPhase rot day (dsClear s) = dsClear (rotPhase rot day s) := by
  unfold rotPhase
  simp only [dsClear_queues, dsClear_ptr]
  rw [popQueue_mapQ clearDay s.queues (rot.getD s.ptr "")]
  rcases hp : popQueue s.queues (rot.getD s.ptr "") with ⟨o, qs'⟩
  cases o with
  | some t => rfl
  | none => rfl

theorem fallbackPhase_clear (rot : List String) (day : Int) (target : Nat) (s : DayState) :
    fallbackPhase rot day target (dsClear s)
      = (fallbackPhase rot day target s).mapState dsClear := by
  unfold fallbackPhase
  simp only [dsClear_queues, dsClear_attempts, dsClear_added]
  by_cases hc : 2 * rot.length < s.attempts ∧ s.added < target
  · rw [if_pos hc, if_pos hc]
    rw [findNonempty_mapQ clearDay s.queues]
    rcases hf : findNonempty s.queues with _ | σ
    · rfl
    · dsimp only
      by_cases hσ : σ = ""
      · rw [if_pos hσ, if_pos hσ]
        rfl
      · rw [if_neg hσ, if_neg hσ]
        rw [popQueue_mapQ clearDay s.queues σ]
        rcases hp : popQueue s.queues σ with ⟨o, qs'⟩
        cases o with
        | some t => rfl
        | none => rfl
  · rw [if_neg hc, if_neg hc]
    rfl

theorem fillStep_clear (rot : List String) (day : Int) (target : Nat) (s : DayState) :
    fillStep rot day target (dsClear s) = (fillStep rot day target s).mapState dsClear := by
  unfold fillStep
  simp only [dsClear_added, dsClear_remaining]
  by_cases hc : s.added < target ∧ 0 < s.remaining
  · rw [if_pos hc, if_pos hc, rotPhase_clear, fallbackPhase_clear]
  · rw [if_neg hc, if_neg hc]
    rfl

theorem fillDay_clear (rot : List String) (day : Int) (target : Nat) :
    ∀ (fuel : Nat) (s : DayState),
      fillDay rot day target fuel (dsClear s) = dsClear (fillDay rot day target fuel s)
  | 0, s => rfl
  | fuel + 1, s => by
    unfold fillDay
    rw [fillStep_clear]
    rcases hstep : fillStep rot day target s with s' | s'
    · rfl
    · exact fillDay_clear rot day target fuel s'

theorem dayStep_clear (rot : List String) (D day : Nat) (s : AllocState) :
    dayStep rot D day (asClear s) = asClear (dayStep rot D day s) := by
  unfold dayStep
  show (let ds := fillDay rot (day : Int) _ _ _; (⟨ds.queues, ds.out, ds.ptr⟩ : AllocState)) = _
  simp only [asClear, sumQ_mapQ]
  have : (⟨mapQ clearDay s.queues, s.out, s.ptr, 0, sumQ s.queues, 0⟩ : DayState)
      = dsClear ⟨s.queues, s.out, s.ptr, 0, sumQ s.queues, 0⟩ := rfl
  rw [this, fillDay_clear]
  rfl

theorem runDays_clear (rot : List String) (D : Nat) :
    ∀ (k day : Nat) (s : AllocState),
      runDays rot D day k (asClear s) = asClear (runDays rot D day k s)
  | 0, _, _ => rfl
  | k + 1, day, s => by
    unfold runDays
    have hq : sumQ (asClear s).queues = sumQ s.queues := sumQ_mapQ clearDay s.queues
    by_cases h0 : sumQ s.queues = 0
    · rw [hq, if_pos h0, if_pos h0]
    · rw [hq, if_neg h0, if_neg h0, dayStep_clear]
      exact runDays_clear rot D k (day + 1) (dayStep rot D day s)

theorem allSubjects_clear (tasks : List Task) :
    allSubjects (tasks.map clearDay) = allSubjects tasks := by
  unfold allSubjects
  rw [List.foldl_map]
  rfl

theorem buildRotation_clear (tasks : List Task) :
    buildRotation (tasks.map clearDay) = buildRotation tasks := by
  unfold buildRotation
  rw [allSubjects_clear]

theorem pushQueue_mapQ (f : Task → Task) :
    ∀ (qs : List (String × List Task)) (subj : String) (t : Task),
      pushQueue (mapQ f qs) subj (f t) = mapQ f (pushQueue qs subj t)
  | [], _, _ => rfl
  | (s, q) :: rest, subj, t => by
    show pushQueue ((s, q.map f) :: mapQ f rest) subj (f t) = _
    unfold pushQueue
    by_cases hs : s = subj
    · rw [if_pos hs, if_pos hs]
      show (s, q.map f ++ [f t]) :: mapQ f rest = (s, (q ++ [t]).map f) :: mapQ f rest
      rw [List.map_append]
      rfl
    · rw [if_neg hs, if_neg hs]
      rw [pushQueue_mapQ f rest subj t]
      rfl

theorem foldl_pushQueue_clear :
    ∀ (tasks : List Task) (qs : List (String × List Task)),
      tasks.foldl (fun acc t => pushQueue acc t.subject (clearDay t)) (mapQ clearDay qs)
        = mapQ clearDay (tasks.foldl (fun acc t => pushQueue acc t.subject t) qs)
  | [], _ => rfl
  | t :: rest, qs => by
    simp only [List.foldl_cons]
    rw [show pushQueue (mapQ clearDay qs) t.subject (clearDay t)
        = mapQ clearDay (pushQueue qs t.subject t) from pushQueue_mapQ clearDay qs t.subject t]
    exact foldl_pushQueue_clear rest (pushQueue qs t.subject t)

theorem buildQueues_clear (tasks : List Task) :
    buildQueues (tasks.map clearDay) = mapQ clearDay (buildQueues tasks) := by
  unfold buildQueues
  rw [allSubjects_clear, List.foldl_map]
  have hinit : ((allSubjects tasks).map (fun s => (s, ([] : List Task))))
      = mapQ clearDay ((allSubjects tasks).map (fun s => (s, ([] : List Task)))) := by
    unfold mapQ
    rw [List.map_map]
    rfl
  conv_lhs => rw [hinit]
  exact foldl_pushQueue_clear tasks _

theorem clearDay_eq_of_agree {a b : Task} (h1 : a.id = b.id) (h2 : a.subject = b.subject)
    (h3 : a.topic = b.topic) (h4 : a.isCompleted = b.isCompleted) (h5 : a.color = b.color) :
    clearDay a = clearDay b := by
  cases a
  cases b
  simp_all [clearDay]

theorem distribute_clear (tasks : List Task) (totalDays : Int) :
    distributeTasksSmartly (tasks.map clearDay) totalDays
      = distributeTasksSmartly tasks totalDays := by
  unfold distributeTasksSmartly
  rw [buildRotation_clear]
  have hstart : allocStart (tasks.map clearDay) = asClear (allocStart tasks) := by
    unfold allocStart asClear
    rw [buildQueues_clear]
  rw [hstart, runDays_clear]
  rfl

/-- Claim C9: the output of the allocator does not depend on the preexisting
`dayIndex` values of the input: two inputs that agree on everything except
`dayIndex` produce identical sequences of `(id, dayIndex)` assignments; in
particular re-running the allocator on its own output reproduces the same
assignment. -/
theorem claim_c9_day_index_ignored (tasks₁ tasks₂ : List Task) (totalDays : Int)
    (h : List.Forall₂ (fun a b => a.id = b.id ∧ a.subject = b.subject ∧ a.topic = b.topic
        ∧ a.isCompleted = b.isCompleted ∧ a.color = b.color) tasks₁ tasks₂) :
    (distributeTasksSmartly tasks₁ totalDays).map (fun t => (t.id, t.dayIndex))
      = (distributeTasksSmartly tasks₂ totalDays).map (fun t => (t.id, t.dayIndex)) := by
  have hmap : tasks₁.map clearDay = tasks₂.map clearDay := by
    induction h with
    | nil => rfl
    | cons hab _ ih =>
      obtain ⟨h1, h2, h3, h4, h5⟩ := hab
      simp only [List.map_cons, ih]
      congr 1
      exact clearDay_eq_of_agree h1 h2 h3 h4 h5
  have : distributeTasksSmartly tasks₁ totalDays = distributeTasksSmartly tasks₂ totalDays := by
    rw [← distribute_clear tasks₁ totalDays, hmap, distribute_clear tasks₂ totalDays]
  rw [this]

/-- Claim C9 witness: two concrete inputs differing only in `dayIndex`. -/
theorem claim_c9_day_index_ignored_witness :
    (distributeTasksSmartly [taskY, taskZ] 2).map (fun t => (t.id, t.dayIndex))
      = (distributeTasksSmartly [taskY2, taskZ2] 2).map (fun t => (t.id, t.dayIndex)) :=
  claim_c9_day_index_ignored [taskY, taskZ] [taskY2, taskZ2] 2
    (List.Forall₂.cons ⟨rfl, rfl, rfl, rfl, rfl⟩
      (List.Forall₂.cons ⟨rfl, rfl, rfl, rfl, rfl⟩ List.Forall₂.nil))

/-- Claim C1 evaluated at a failing input: three tasks whose subject is the
empty string, one day.  The claim (and the spec's conservation invariant)
requires all three ids in the output; the code emits only two, because the
fallback guard `if (anySubject)` is a JS truthiness test that treats the
empty-string subject key as "no queue found" and breaks the day loop with
items still queued, contradicting the adjacent comment "No tasks left
anywhere". -/
theorem claim_c1_conservation_failing_input :
    (distributeTasksSmartly emptySubjectInput 1).map Task.id = ["e1", "e2"]
      ∧ emptySubjectInput.map Task.id = ["e1", "e2", "e3"]
      ∧ ¬ ((distributeTasksSmartly emptySubjectInput 1).map Task.id).Perm
          (emptySubjectInput.map Task.id) := by
  decide

/-- Claim C3 evaluated at a failing input: `taskE1` and `taskE3` share the
empty-string subject and `taskE1` precedes `taskE3` in the input, yet the
output contains `taskE1` and not `taskE3`, so `taskE3` gets no assigned day
and does not follow `taskE1` in the output sequence. -/
theorem claim_c3_fifo_failing_input :
    taskE1.subject = taskE3.subject
      ∧ "e1" ∈ (distributeTasksSmartly emptySubjectInput 1).map Task.id
      ∧ "e3" ∉ (distributeTasksSmartly emptySubjectInput 1).map Task.id := by
  decide

end StudyPlan
